import Mathlib

/-!
Verification of the tox DHT node liveness/challenge logic
(src/toxcore/dht/dht_node.rs) and the CryptoData packet codec
(src/toxcore/dht/packet/crypto_data.rs).

Modelling conventions:
* clock: `Instant` values and "now" are natural numbers; `t.elapsed()`
  at time `now` is the truncated difference `now - t`, matching the monotone
  Rust `Instant` (the clock of the caller never goes backwards);
* randomness: `random_u64` draws are an explicitly passed list of
  values, consumed in order;
* `HashMap<u64, Instant>` is an association list `List (Nat × Nat)`
  with `List.lookup` for lookup, cons-after-filter for insert and
  filter for remove/retain;
* byte buffers are `List Nat` (each entry a byte value).
-/

/-! ## DHT node (src/toxcore/dht/dht_node.rs) -/

/-- Status of node in bucket: `Good` (responded within the timeout) or
`Bad` (did not respond for longer than the timeout). -/
inductive NodeStatus
  /-- online -/
  | Good
  /-- maybe offline -/
  | Bad
deriving DecidableEq, Repr

/-- `PackedNode`: public key plus socket address, as consumed by
`DhtNode::new`.  Declared in packed_node.rs (not under src/); only the
two fields read by `DhtNode::new` are modelled.  The public key is
modelled as the natural number given by its byte string, the socket
address as an opaque natural number. -/
structure PackedNode where
  pk : Nat
  saddr : Nat
deriving DecidableEq, Repr

/-- `DhtNode`: socket address, public key, hash of ping ids with the
time each was issued, last received response time, and last sent
ping-request time. -/
structure DhtNode where
  saddr : Nat
  pk : Nat
  ping_hash : List (Nat × Nat)
  last_resp_time : Nat
  last_ping_req_time : Nat
deriving DecidableEq, Repr

/-- `DhtNode::new`: create a `DhtNode` from a `PackedNode` with an
empty ping hash; both timestamps are `Instant::now()`. -/
def DhtNode.new (pn : PackedNode) (now : Nat) : DhtNode :=
  { saddr := pn.saddr
    pk := pn.pk
    ping_hash := []
    last_resp_time := now
    last_ping_req_time := now }

/-- `DhtNode::calc_status`: `Bad` when `last_resp_time.elapsed() >
bad_node_timeout`, otherwise `Good`. -/
def DhtNode.calc_status (node : DhtNode) (now bad_node_timeout : Nat) : NodeStatus :=
  if now - node.last_resp_time > bad_node_timeout then NodeStatus.Bad else NodeStatus.Good

/-- Modelled from the spec: `PublicKey::distance` lives in kbucket.rs,
which is not under src/.  Per the spec it orders two candidate keys by
their bitwise-XOR distance from the base key, ascending. -/
def distance (own pk1 pk2 : Nat) : Ordering :=
  compare (Nat.xor own pk1) (Nat.xor own pk2)

/-- `<PublicKey as ReplaceOrder>::replace_order`: compare two nodes,
liveness status first (Good before Bad), XOR distance from the base
key as tie-break among nodes of equal status. -/
def replace_order (own : Nat) (node1 node2 : DhtNode) (now bad_node_timeout : Nat) : Ordering :=
  match node1.calc_status now bad_node_timeout, node2.calc_status now bad_node_timeout with
  | NodeStatus.Good, NodeStatus.Good => distance own node1.pk node2.pk
  | NodeStatus.Good, NodeStatus.Bad => Ordering.lt
  | NodeStatus.Bad, NodeStatus.Good => Ordering.gt
  | NodeStatus.Bad, NodeStatus.Bad => distance own node1.pk node2.pk

/-- `DhtNode::generate_ping_id`: draw random values until one is
nonzero and not already a key of `ping_hash`.  The loop is modelled on
an explicit finite stream of draws; `none` means the stream ran out
(the Rust loop would keep drawing). -/
def DhtNode.generate_ping_id (node : DhtNode) : List Nat → Option Nat
  | [] => none
  | r :: rs =>
    if r ≠ 0 ∧ List.lookup r node.ping_hash = none then some r
    else node.generate_ping_id rs

/-- `HashMap::insert` on the association-list model: the new binding
replaces any existing binding of the key. -/
def hashInsert (m : List (Nat × Nat)) (k v : Nat) : List (Nat × Nat) :=
  (k, v) :: m.filter (fun p => p.1 != k)

/-- `DhtNode::insert_new_ping_id`: generate a fresh ping id, bind it
to `Instant::now()` in `ping_hash`, and return it. -/
def DhtNode.insert_new_ping_id (node : DhtNode) (now : Nat) (rnd : List Nat) :
    Option (Nat × DhtNode) :=
  match node.generate_ping_id rnd with
  | none => none
  | some ping_id =>
    some (ping_id, { node with ping_hash := hashInsert node.ping_hash ping_id now })

/-- `DhtNode::clear_timedout_pings`: retain only the entries whose
issuance time satisfies `time.elapsed() <= timeout`. -/
def DhtNode.clear_timedout_pings (node : DhtNode) (now timeout : Nat) : DhtNode :=
  { node with ping_hash := node.ping_hash.filter (fun p => decide (now - p.2 ≤ timeout)) }

/-- `DhtNode::check_ping_id`: `false` if `ping_id == 0`; otherwise
remove `ping_id` from `ping_hash` (`HashMap::remove`, modelled as
lookup plus filter): `false` if it was absent, `false` if the entry
was found but `time_ping_sent.elapsed() > timeout`, else `true`. -/
def DhtNode.check_ping_id (node : DhtNode) (now ping_id timeout : Nat) : Bool × DhtNode :=
  if ping_id = 0 then (false, node)
  else
    match List.lookup ping_id node.ping_hash with
    | none => (false, node)
    | some time_ping_sent =>
      let node2 := { node with ping_hash := node.ping_hash.filter (fun p => p.1 != ping_id) }
      if now - time_ping_sent > timeout then (false, node2)
      else (true, node2)

/-! ## CryptoData packet (src/toxcore/dht/packet/crypto_data.rs) -/

/-- The maximum size of a `CryptoData` packet including the two nonce
bytes and the packet kind byte. -/
def MAX_CRYPTO_PACKET_SIZE : Nat := 1400

/-- `MACBYTES`: the authentication-tag overhead added by
`seal_precomputed` (crypto_core constant, 16 bytes). -/
def MACBYTES : Nat := 16

/-- `NONCEBYTES`: length of a full nonce (crypto_core constant, 24
bytes). -/
def NONCEBYTES : Nat := 24

/-- A full 24-byte session nonce, as its byte string. -/
structure Nonce where
  bytes : List Nat
deriving DecidableEq, Repr

/-- A precomputed shared key, modelled opaquely. -/
structure PrecomputedKey where
  key : Nat
deriving DecidableEq, Repr

/-- Modelled from the spec: the authenticated-encryption primitive of
crypto_core (not under src/).  A ciphertext is the sealed message
together with the nonce and key it was sealed under; `open` fails
closed (yields nothing) under any other nonce or key. -/
inductive Ciphertext
  | sealed (msg : List Nat) (nonce : Nonce) (key : PrecomputedKey)
deriving DecidableEq, Repr

/-- Modelled from the spec: `seal_precomputed` of crypto_core. -/
def seal_precomputed (msg : List Nat) (nonce : Nonce) (key : PrecomputedKey) : Ciphertext :=
  Ciphertext.sealed msg nonce key

/-- Modelled from the spec: `open_precomputed` of crypto_core; returns
the sealed message exactly when nonce and key both match, and fails
closed otherwise (wrong key, wrong nonce, tampering). -/
def open_precomputed (c : Ciphertext) (nonce : Nonce) (key : PrecomputedKey) :
    Option (List Nat) :=
  match c with
  | Ciphertext.sealed msg n k => if n = nonce ∧ k = key then some msg else none

/-- Byte length of a ciphertext: `seal_precomputed` adds exactly
`MACBYTES` bytes of authentication tag to the plaintext. -/
def Ciphertext.byteLength : Ciphertext → Nat
  | Ciphertext.sealed msg _ _ => msg.length + MACBYTES

/-- Spec error kinds for the codec layer (the Rust code returns
`io::Error`/`GenError` values distinguished only by message; the spec
names the kinds). -/
inductive CodecError
  | MalformedPacket
  | PacketTooLarge
  | TruncatedPayload
  | DecryptionFailed
deriving DecidableEq, Repr

/-- Unencrypted payload of a `CryptoData` packet: 4-byte big-endian
buffer_start, 4-byte big-endian packet_number, rest as data.  The u32
fields are naturals; faithful values are below `2 ^ 32`. -/
structure CryptoDataPayload where
  buffer_start : Nat
  packet_number : Nat
  data : List Nat
deriving DecidableEq, Repr

/-- Big-endian serialization of a u32 value into four bytes
(`gen_be_u32`). -/
def u32be (x : Nat) : List Nat :=
  [x / 2 ^ 24 % 256, x / 2 ^ 16 % 256, x / 2 ^ 8 % 256, x % 256]

/-- Big-endian deserialization of four bytes into a u32 value
(`be_u32`). -/
def beU32 (a b c d : Nat) : Nat :=
  ((a * 256 + b) * 256 + c) * 256 + d

/-- `CryptoDataPayload::to_bytes`: big-endian buffer_start, big-endian
packet_number, data verbatim.  The Rust version writes into a caller
buffer and can fail when the buffer is too small; that failure is
accounted for at the call site (`CryptoData::new`). -/
def CryptoDataPayload.to_bytes (p : CryptoDataPayload) : List Nat :=
  u32be p.buffer_start ++ u32be p.packet_number ++ p.data

/-- `CryptoDataPayload::from_bytes`: consume two big-endian u32 values
and take the rest verbatim; incomplete (`none`) exactly when fewer
than 8 bytes are available. -/
def CryptoDataPayload.from_bytes : List Nat → Option CryptoDataPayload
  | b0 :: b1 :: b2 :: b3 :: b4 :: b5 :: b6 :: b7 :: rest =>
    some { buffer_start := beU32 b0 b1 b2 b3
           packet_number := beU32 b4 b5 b6 b7
           data := rest }
  | _ => none

/-- `CryptoData` packet: last two bytes of the nonce in big-endian
form, plus the encrypted payload. -/
structure CryptoData where
  nonce_last_bytes : Nat
  payload : Ciphertext
deriving DecidableEq, Repr

/-- `CryptoData::nonce_last_bytes`: the last two bytes of the nonce
read as a big-endian u16. -/
def CryptoData.nonceLastBytes (nonce : Nonce) : Nat :=
  nonce.bytes.getD (NONCEBYTES - 2) 0 * 256 + nonce.bytes.getD (NONCEBYTES - 1) 0

/-- `CryptoData::new`: serialize the payload into a stack buffer of
`MAX_CRYPTO_PACKET_SIZE - MACBYTES - 3` bytes, seal it, and record the
nonce suffix.  The Rust code calls `.unwrap()` on the serialization
result, so a payload that does not fit the 1381-byte buffer panics;
`none` models that panic. -/
def CryptoData.new (shared_secret : PrecomputedKey) (nonce : Nonce)
    (payload : CryptoDataPayload) : Option CryptoData :=
  if 8 + payload.data.length ≤ MAX_CRYPTO_PACKET_SIZE - MACBYTES - 3 then
    some { nonce_last_bytes := CryptoData.nonceLastBytes nonce
           payload := seal_precomputed payload.to_bytes nonce shared_secret }
  else none

/-- `CryptoData::to_bytes`: write the tag byte `0x1b`, the two-byte
big-endian nonce suffix and the ciphertext, then `gen_len_limit
MAX_CRYPTO_PACKET_SIZE`: fail when the written size exceeds 1400
bytes.  Since the ciphertext is abstract the model returns the written
size (the `usize` result of the Rust function), which is what the length
limit checks. -/
def CryptoData.to_bytes (c : CryptoData) : Except CodecError Nat :=
  let size := 1 + 2 + c.payload.byteLength
  if size ≤ MAX_CRYPTO_PACKET_SIZE then Except.ok size
  else Except.error CodecError.PacketTooLarge

/-- `CryptoData::get_payload`: open the ciphertext with the given key
and nonce (failure: `DecryptionFailed`), then parse the plaintext as a
`CryptoDataPayload` (failure: `TruncatedPayload`). -/
def CryptoData.get_payload (c : CryptoData) (shared_secret : PrecomputedKey)
    (nonce : Nonce) : Except CodecError CryptoDataPayload :=
  match open_precomputed c.payload nonce shared_secret with
  | none => Except.error CodecError.DecryptionFailed
  | some decrypted =>
    match CryptoDataPayload.from_bytes decrypted with
    | none => Except.error CodecError.TruncatedPayload
    | some payload => Except.ok payload

/-- The ping hash invariant: no entry carries the reserved id 0. -/
def no_zero_id (node : DhtNode) : Prop :=
  ∀ p ∈ node.ping_hash, p.1 ≠ 0

/-! ## Helper lemmas -/

/-- Looking a key up after filtering out every pair with that key
yields nothing (the association-list analogue of lookup after
`HashMap::remove`). -/
theorem lookup_filter_ne (m : List (Nat × Nat)) (k : Nat) :
    List.lookup k (m.filter (fun p => p.1 != k)) = none := by
  induction m with
  | nil => rfl
  | cons a t ih =>
    rcases a with ⟨x, v⟩
    by_cases h : x = k
    · simpa [List.filter_cons, h] using ih
    · have hkx : (k == x) = false := by simp [Ne.symm h]
      simp [List.filter_cons, h, List.lookup_cons, hkx, ih]

/-- A successful draw from `generate_ping_id` is nonzero and not yet a
key of the ping hash. -/
theorem generate_ping_id_spec (node : DhtNode) (rnd : List Nat) (pid : Nat)
    (h : node.generate_ping_id rnd = some pid) :
    pid ≠ 0 ∧ List.lookup pid node.ping_hash = none := by
  induction rnd with
  | nil => simp [DhtNode.generate_ping_id] at h
  | cons r rs ih =>
    simp only [DhtNode.generate_ping_id] at h
    split at h
    · next hcond =>
      injection h with h2
      subst h2
      exact hcond
    · exact ih h

/-- Byte length of a serialized payload. -/
theorem payload_to_bytes_length (p : CryptoDataPayload) :
    p.to_bytes.length = 8 + p.data.length := by
  simp [CryptoDataPayload.to_bytes, u32be]
  omega

/-! ## Claims about the DHT node -/

/-- Claim C7: `calc_status` returns `Bad` (`Stale` in the spec) exactly
when the time elapsed since the last response strictly exceeds the
threshold, and `Good` (`Live` in the spec) otherwise; it is a pure
total function. -/
theorem calc_status_spec (node : DhtNode) (now bad_node_timeout : Nat) :
    (node.calc_status now bad_node_timeout = NodeStatus.Bad ↔
      now - node.last_resp_time > bad_node_timeout) ∧
    (node.calc_status now bad_node_timeout = NodeStatus.Good ↔
      ¬ now - node.last_resp_time > bad_node_timeout) := by
  unfold DhtNode.calc_status
  by_cases h : now - node.last_resp_time > bad_node_timeout <;> simp [h]

/-- Witness for the claim C7 theorem at a concrete node. -/
theorem calc_status_spec_witness :
    DhtNode.calc_status ⟨0, 1, [], 2, 0⟩ 9 5 = NodeStatus.Bad :=
  (calc_status_spec ⟨0, 1, [], 2, 0⟩ 9 5).1.mpr (by decide)

/-- Claim C2: `replace_order` orders two `Good` nodes by XOR distance
from the base key ascending (closer is less), a `Good` node before a
`Bad` one regardless of distance, and two `Bad` nodes again by XOR
distance ascending. -/
theorem replace_order_cases (own : Nat) (node1 node2 : DhtNode) (now bad_node_timeout : Nat) :
    (node1.calc_status now bad_node_timeout = NodeStatus.Good →
      node2.calc_status now bad_node_timeout = NodeStatus.Good →
      replace_order own node1 node2 now bad_node_timeout =
          compare (Nat.xor own node1.pk) (Nat.xor own node2.pk) ∧
        (replace_order own node1 node2 now bad_node_timeout = Ordering.lt ↔
          Nat.xor own node1.pk < Nat.xor own node2.pk)) ∧
    (node1.calc_status now bad_node_timeout = NodeStatus.Good →
      node2.calc_status now bad_node_timeout = NodeStatus.Bad →
      replace_order own node1 node2 now bad_node_timeout = Ordering.lt) ∧
    (node1.calc_status now bad_node_timeout = NodeStatus.Bad →
      node2.calc_status now bad_node_timeout = NodeStatus.Good →
      replace_order own node1 node2 now bad_node_timeout = Ordering.gt) ∧
    (node1.calc_status now bad_node_timeout = NodeStatus.Bad →
      node2.calc_status now bad_node_timeout = NodeStatus.Bad →
      replace_order own node1 node2 now bad_node_timeout =
          compare (Nat.xor own node1.pk) (Nat.xor own node2.pk) ∧
        (replace_order own node1 node2 now bad_node_timeout = Ordering.lt ↔
          Nat.xor own node1.pk < Nat.xor own node2.pk)) := by
  refine ⟨?_, ?_, ?_, ?_⟩ <;> intro h1 h2 <;>
    simp [replace_order, h1, h2, distance, Nat.compare_eq_lt]

/-- Witness for the claim C2 theorem: a live node orders before a
stale one. -/
theorem replace_order_cases_witness :
    replace_order 0 ⟨0, 1, [], 10, 0⟩ ⟨0, 2, [], 0, 0⟩ 10 5 = Ordering.lt :=
  (replace_order_cases 0 ⟨0, 1, [], 10, 0⟩ ⟨0, 2, [], 0, 0⟩ 10 5).2.1
    (by decide) (by decide)

/-- Claim C4: under a fixed base key, clock and threshold,
`replace_order` is antisymmetric (comparing the arguments swapped
reverses the ordering) and transitive (for strictly-less and for
equivalence) over any three nodes. -/
theorem replace_order_strict_weak (own now bad_node_timeout : Nat) (a b c : DhtNode) :
    replace_order own a b now bad_node_timeout =
      (replace_order own b a now bad_node_timeout).swap ∧
    (replace_order own a b now bad_node_timeout = Ordering.lt →
      replace_order own b c now bad_node_timeout = Ordering.lt →
      replace_order own a c now bad_node_timeout = Ordering.lt) ∧
    (replace_order own a b now bad_node_timeout = Ordering.eq →
      replace_order own b c now bad_node_timeout = Ordering.eq →
      replace_order own a c now bad_node_timeout = Ordering.eq) := by
  refine ⟨?_, ?_, ?_⟩
  · cases ha : a.calc_status now bad_node_timeout <;>
      cases hb : b.calc_status now bad_node_timeout <;>
        simp only [replace_order, ha, hb, distance] <;>
        first
          | rfl
          | exact (Nat.compare_swap _ _).symm
  · cases ha : a.calc_status now bad_node_timeout <;>
      cases hb : b.calc_status now bad_node_timeout <;>
        cases hc : c.calc_status now bad_node_timeout <;>
          simp [replace_order, ha, hb, hc, distance, Nat.compare_eq_lt] <;>
          exact fun h1 h2 => Nat.lt_trans h1 h2
  · cases ha : a.calc_status now bad_node_timeout <;>
      cases hb : b.calc_status now bad_node_timeout <;>
        cases hc : c.calc_status now bad_node_timeout <;>
          simp [replace_order, ha, hb, hc, distance, Nat.compare_eq_eq] <;>
          exact fun h1 h2 => h1.trans h2

/-- Witness for the claim C4 theorem: transitivity of strictly-less at
three concrete live nodes. -/
theorem replace_order_strict_weak_witness :
    replace_order 0 ⟨0, 1, [], 0, 0⟩ ⟨0, 3, [], 0, 0⟩ 0 5 = Ordering.lt :=
  (replace_order_strict_weak 0 0 5 ⟨0, 1, [], 0, 0⟩ ⟨0, 2, [], 0, 0⟩ ⟨0, 3, [], 0, 0⟩).2.1
    (by decide) (by decide)

/-- Claim C3: `check_ping_id` returns `false` without mutation for id
0; removes the id and returns `false` when it is absent (removal of an
absent key leaves the store unchanged); removes the id and returns
`false` when the entry is present but older than the timeout; removes
the id and returns `true` otherwise; and validating the same id a
second time always fails. -/
theorem check_ping_id_spec (node : DhtNode) (now now2 ping_id timeout : Nat) :
    (ping_id = 0 → node.check_ping_id now ping_id timeout = (false, node)) ∧
    (ping_id ≠ 0 → List.lookup ping_id node.ping_hash = none →
      node.check_ping_id now ping_id timeout = (false, node)) ∧
    (∀ t, ping_id ≠ 0 → List.lookup ping_id node.ping_hash = some t →
      now - t > timeout →
      node.check_ping_id now ping_id timeout =
        (false, { node with ping_hash := node.ping_hash.filter (fun p => p.1 != ping_id) })) ∧
    (∀ t, ping_id ≠ 0 → List.lookup ping_id node.ping_hash = some t →
      ¬ now - t > timeout →
      node.check_ping_id now ping_id timeout =
        (true, { node with ping_hash := node.ping_hash.filter (fun p => p.1 != ping_id) })) ∧
    ((node.check_ping_id now ping_id timeout).2.check_ping_id now2 ping_id timeout).1 =
      false := by
  refine ⟨?_, ?_, ?_, ?_, ?_⟩
  · intro h
    simp [DhtNode.check_ping_id, h]
  · intro h hl
    simp [DhtNode.check_ping_id, h, hl]
  · intro t h hl ht
    simp [DhtNode.check_ping_id, h, hl, ht]
  · intro t h hl ht
    simp [DhtNode.check_ping_id, h, hl, ht]
  · by_cases h : ping_id = 0
    · simp [DhtNode.check_ping_id, h]
    · cases hl : List.lookup ping_id node.ping_hash with
      | none => simp [DhtNode.check_ping_id, h, hl]
      | some t =>
        by_cases ht : now - t > timeout <;>
          simp [DhtNode.check_ping_id, h, hl, ht, lookup_filter_ne]

/-- Witness for the claim C3 theorem: a fresh unexpired id validates
once and its entry is removed. -/
theorem check_ping_id_spec_witness :
    DhtNode.check_ping_id ⟨0, 1, [(5, 10)], 0, 0⟩ 12 5 5 = (true, ⟨0, 1, [], 0, 0⟩) := by
  have h := (check_ping_id_spec ⟨0, 1, [(5, 10)], 0, 0⟩ 12 0 5 5).2.2.2.1 10
    (by decide) (by decide) (by decide)
  simpa using h

/-- Claim C10: for a nonzero id absent from the ping hash,
`check_ping_id` returns `false` and the whole node record is returned
unchanged. -/
theorem check_ping_id_miss_frame (node : DhtNode) (now ping_id timeout : Nat)
    (h0 : ping_id ≠ 0) (hl : List.lookup ping_id node.ping_hash = none) :
    node.check_ping_id now ping_id timeout = (false, node) := by
  simp [DhtNode.check_ping_id, h0, hl]

/-- Witness for the claim C10 theorem at a concrete node and id. -/
theorem check_ping_id_miss_frame_witness :
    DhtNode.check_ping_id ⟨0, 1, [(5, 10)], 0, 0⟩ 3 7 5 =
      (false, ⟨0, 1, [(5, 10)], 0, 0⟩) :=
  check_ping_id_miss_frame ⟨0, 1, [(5, 10)], 0, 0⟩ 3 7 5 (by decide) (by decide)

/-! ## Claims about the CryptoData codec -/

/-- Reading back the four big-endian digits of a u32 value recovers
it. -/
theorem beU32_u32be (x : Nat) (hx : x < 2 ^ 32) :
    beU32 (x / 2 ^ 24 % 256) (x / 2 ^ 16 % 256) (x / 2 ^ 8 % 256) (x % 256) = x := by
  unfold beU32
  omega

/-- Payload serialization round-trips through deserialization. -/
theorem payload_from_bytes_to_bytes (p : CryptoDataPayload)
    (hb : p.buffer_start < 2 ^ 32) (hn : p.packet_number < 2 ^ 32) :
    CryptoDataPayload.from_bytes p.to_bytes = some p := by
  rcases p with ⟨bs, pn, data⟩
  simp only [CryptoDataPayload.to_bytes, u32be, List.cons_append, List.nil_append,
    CryptoDataPayload.from_bytes, Option.some.injEq, CryptoDataPayload.mk.injEq]
  exact ⟨beU32_u32be bs hb, beU32_u32be pn hn, trivial⟩

/-- Payload deserialization is incomplete exactly on inputs shorter
than 8 bytes. -/
theorem payload_from_bytes_none_iff (l : List Nat) :
    CryptoDataPayload.from_bytes l = none ↔ l.length < 8 := by
  rcases l with _ | ⟨b0, _ | ⟨b1, _ | ⟨b2, _ | ⟨b3, _ | ⟨b4, _ | ⟨b5, _ | ⟨b6, _ | ⟨b7, rest⟩⟩⟩⟩⟩⟩⟩⟩ <;>
    simp [CryptoDataPayload.from_bytes]

/-- Claim C8: deserializing the serialization of any payload (4-byte
big-endian buffer_start, 4-byte big-endian packet_number, data
verbatim with no length prefix) yields that payload back, and
deserialization fails exactly when fewer than 8 bytes are
available. -/
theorem crypto_data_payload_roundtrip (p : CryptoDataPayload)
    (hb : p.buffer_start < 2 ^ 32) (hn : p.packet_number < 2 ^ 32) :
    CryptoDataPayload.from_bytes p.to_bytes = some p ∧
    ∀ l : List Nat, (CryptoDataPayload.from_bytes l = none ↔ l.length < 8) :=
  ⟨payload_from_bytes_to_bytes p hb hn, payload_from_bytes_none_iff⟩

/-- Witness for the claim C8 theorem at a concrete payload. -/
theorem crypto_data_payload_roundtrip_witness :
    CryptoDataPayload.from_bytes (CryptoDataPayload.to_bytes ⟨1, 2, [3]⟩) =
      some ⟨1, 2, [3]⟩ :=
  (crypto_data_payload_roundtrip ⟨1, 2, [3]⟩ (by decide) (by decide)).1

/-- Claim C1: a packet built by `CryptoData::new` decrypts back to the
original payload under the same key and nonce, and decryption with a
different key or different full nonce fails with the decryption error,
never yielding a parsed payload. -/
theorem crypto_data_encrypt_then_decrypt (k k2 : PrecomputedKey) (n n2 : Nonce)
    (p : CryptoDataPayload) (c : CryptoData)
    (hb : p.buffer_start < 2 ^ 32) (hn : p.packet_number < 2 ^ 32)
    (hc : CryptoData.new k n p = some c) :
    c.get_payload k n = Except.ok p ∧
    (¬ (n2 = n ∧ k2 = k) →
      c.get_payload k2 n2 = Except.error CodecError.DecryptionFailed) := by
  unfold CryptoData.new at hc
  split at hc
  · injection hc with hc
    subst hc
    constructor
    · simp [CryptoData.get_payload, open_precomputed, seal_precomputed,
        payload_from_bytes_to_bytes p hb hn]
    · intro hne
      simp only [CryptoData.get_payload, open_precomputed, seal_precomputed]
      rw [if_neg fun hh => hne ⟨hh.1.symm, hh.2.symm⟩]
  · exact absurd hc (by simp)

/-- Witness for the claim C1 theorem: a concrete payload decrypts back
under the right key and fails under a wrong key with the same nonce
(hence the same wire nonce suffix). -/
theorem crypto_data_encrypt_then_decrypt_witness :
    CryptoData.get_payload ⟨0, Ciphertext.sealed [0, 0, 0, 1, 0, 0, 0, 2, 3] ⟨[]⟩ ⟨5⟩⟩
        ⟨5⟩ ⟨[]⟩ = Except.ok ⟨1, 2, [3]⟩ ∧
    CryptoData.get_payload ⟨0, Ciphertext.sealed [0, 0, 0, 1, 0, 0, 0, 2, 3] ⟨[]⟩ ⟨5⟩⟩
        ⟨6⟩ ⟨[]⟩ = Except.error CodecError.DecryptionFailed :=
  ⟨(crypto_data_encrypt_then_decrypt ⟨5⟩ ⟨6⟩ ⟨[]⟩ ⟨[]⟩ ⟨1, 2, [3]⟩ _
      (by decide) (by decide) rfl).1,
   (crypto_data_encrypt_then_decrypt ⟨5⟩ ⟨6⟩ ⟨[]⟩ ⟨[]⟩ ⟨1, 2, [3]⟩ _
      (by decide) (by decide) rfl).2 (by decide)⟩

/-- A payload too large for the 1381-byte serialization buffer of
`CryptoData::new` hits the `.unwrap()` panic, modelled as `none`. -/
theorem new_eq_none_of_large (k : PrecomputedKey) (n : Nonce) (p : CryptoDataPayload)
    (h : 8 + p.data.length > 1381) : CryptoData.new k n p = none := by
  simp only [CryptoData.new, MAX_CRYPTO_PACKET_SIZE, MACBYTES]
  rw [if_neg (by omega)]

/-- A payload that fits the 1381-byte serialization buffer makes
`CryptoData::new` return the sealed packet. -/
theorem new_eq_some_of_small (k : PrecomputedKey) (n : Nonce) (p : CryptoDataPayload)
    (h : 8 + p.data.length ≤ 1381) :
    CryptoData.new k n p =
      some { nonce_last_bytes := CryptoData.nonceLastBytes n
             payload := seal_precomputed p.to_bytes n k } := by
  simp only [CryptoData.new, MAX_CRYPTO_PACKET_SIZE, MACBYTES]
  rw [if_pos (by omega)]

set_option maxRecDepth 10000 in
/-- Counterexample to claim C5 as stated: an encode request whose
total wire size would be 1401 bytes (a 1374-byte body) does not
surface `PacketTooLarge` as a typed failure; `CryptoData::new` panics
on the `.unwrap()` of the payload serialization into its 1381-byte
buffer (the panic is the `none` result). -/
theorem encode_1401_panics :
    CryptoData.new ⟨0⟩ ⟨[]⟩ ⟨0, 0, List.replicate 1374 0⟩ = none ∧
    1 + 2 + ((CryptoDataPayload.to_bytes ⟨0, 0, List.replicate 1374 0⟩).length +
      MACBYTES) = 1401 := by
  constructor
  · refine new_eq_none_of_large _ _ _ ?_
    show 8 + (List.replicate 1374 (0 : Nat)).length > 1381
    rw [List.length_replicate]
    omega
  · rw [payload_to_bytes_length]
    show 1 + 2 + (8 + (List.replicate 1374 (0 : Nat)).length + 16) = 1401
    rw [List.length_replicate]

/-- Claim C5 as amended: `to_bytes` fails with `PacketTooLarge`
exactly when the total serialized size (tag byte, 2-byte nonce suffix,
ciphertext) exceeds 1400 bytes; every packet built by
`CryptoData::new` (body of at most 1373 bytes) serializes successfully
to `27 + body length ≤ 1400` bytes, a 1373-byte body giving exactly
1400; and a body of 1374 bytes or more makes `CryptoData::new` panic
rather than return a typed failure. -/
theorem to_bytes_size_limit (c : CryptoData) (k : PrecomputedKey) (n : Nonce)
    (p : CryptoDataPayload) :
    (c.to_bytes = Except.error CodecError.PacketTooLarge ↔
      1 + 2 + c.payload.byteLength > MAX_CRYPTO_PACKET_SIZE) ∧
    (8 + p.data.length ≤ 1381 →
      ∃ c2, CryptoData.new k n p = some c2 ∧
        c2.to_bytes = Except.ok (27 + p.data.length) ∧ 27 + p.data.length ≤ 1400) ∧
    (8 + p.data.length > 1381 → CryptoData.new k n p = none) := by
  refine ⟨?_, ?_, ?_⟩
  · by_cases h : 1 + 2 + c.payload.byteLength ≤ MAX_CRYPTO_PACKET_SIZE
    · simp [CryptoData.to_bytes, h]
    · simp [CryptoData.to_bytes, h]
      omega
  · intro h
    refine ⟨_, new_eq_some_of_small k n p (by omega), ?_, by omega⟩
    simp only [CryptoData.to_bytes, seal_precomputed, Ciphertext.byteLength,
      payload_to_bytes_length, MACBYTES, MAX_CRYPTO_PACKET_SIZE]
    rw [if_pos (by omega)]
    congr 1
    omega
  · intro h
    exact new_eq_none_of_large k n p (by omega)

set_option maxRecDepth 10000 in
/-- Witness for the amended claim C5 theorem: a 1373-byte body encodes
to exactly 1400 bytes and succeeds. -/
theorem to_bytes_size_limit_witness :
    ∃ c2, CryptoData.new ⟨0⟩ ⟨[]⟩ ⟨0, 0, List.replicate 1373 0⟩ = some c2 ∧
      CryptoData.to_bytes c2 =
        Except.ok (27 + (List.replicate 1373 (0 : Nat)).length) ∧
      27 + (List.replicate 1373 (0 : Nat)).length ≤ 1400 :=
  (to_bytes_size_limit ⟨0, Ciphertext.sealed [] ⟨[]⟩ ⟨0⟩⟩ ⟨0⟩ ⟨[]⟩
    ⟨0, 0, List.replicate 1373 0⟩).2.1
    (by show 8 + (List.replicate 1373 (0 : Nat)).length ≤ 1381
        rw [List.length_replicate])

/-- Counterexample to claim C6 as stated: issuing a challenge at time
5 on a node whose `last_ping_req_time` is 0 returns with
`last_ping_req_time` still 0, not the issuance timestamp —
`insert_new_ping_id` does not mutate `last_ping_req_time`. -/
theorem insert_new_ping_id_req_time_cx :
    DhtNode.insert_new_ping_id ⟨0, 1, [], 0, 0⟩ 5 [7] =
      some (7, ⟨0, 1, [(7, 5)], 0, 0⟩) ∧
    DhtNode.last_ping_req_time ⟨0, 1, [(7, 5)], 0, 0⟩ ≠ 5 := by
  constructor
  · rfl
  · decide

/-- Claim C6 as amended: `insert_new_ping_id` binds the fresh id to
the issuance time in `ping_hash` and leaves every other field —
including `last_ping_req_time` — unchanged; the request timestamp is
not updated by issuance in this core. -/
theorem insert_new_ping_id_frame (node : DhtNode) (now : Nat) (rnd : List Nat)
    (pid : Nat) (node2 : DhtNode)
    (h : node.insert_new_ping_id now rnd = some (pid, node2)) :
    node2.last_ping_req_time = node.last_ping_req_time ∧
    node2.saddr = node.saddr ∧ node2.pk = node.pk ∧
    node2.last_resp_time = node.last_resp_time ∧
    node2.ping_hash = hashInsert node.ping_hash pid now := by
  unfold DhtNode.insert_new_ping_id at h
  cases hg : node.generate_ping_id rnd with
  | none =>
    rw [hg] at h
    exact absurd h (by simp)
  | some pid0 =>
    rw [hg] at h
    have h2 := Option.some.inj h
    have hp : pid0 = pid := congrArg Prod.fst h2
    have hn : ({ node with ping_hash := hashInsert node.ping_hash pid0 now } : DhtNode) =
        node2 := congrArg Prod.snd h2
    subst hp
    rw [← hn]
    simp

/-- Witness for the amended claim C6 theorem at a concrete node. -/
theorem insert_new_ping_id_frame_witness :
    DhtNode.last_ping_req_time ⟨0, 1, [(7, 5)], 0, 0⟩ =
      DhtNode.last_ping_req_time ⟨0, 1, [], 0, 0⟩ ∧
    DhtNode.saddr ⟨0, 1, [(7, 5)], 0, 0⟩ = DhtNode.saddr ⟨0, 1, [], 0, 0⟩ ∧
    DhtNode.pk ⟨0, 1, [(7, 5)], 0, 0⟩ = DhtNode.pk ⟨0, 1, [], 0, 0⟩ ∧
    DhtNode.last_resp_time ⟨0, 1, [(7, 5)], 0, 0⟩ =
      DhtNode.last_resp_time ⟨0, 1, [], 0, 0⟩ ∧
    DhtNode.ping_hash ⟨0, 1, [(7, 5)], 0, 0⟩ =
      hashInsert (DhtNode.ping_hash ⟨0, 1, [], 0, 0⟩) 7 5 :=
  insert_new_ping_id_frame ⟨0, 1, [], 0, 0⟩ 5 [7] 7 ⟨0, 1, [(7, 5)], 0, 0⟩ (by decide)

/-- Claim C9: the ping hash never holds the reserved id 0 — a fresh
node has an empty store; issuance generates an id that is nonzero and
not already present and preserves the invariant; validation
(`check_ping_id`) and expiry (`clear_timedout_pings`) only remove
entries and preserve it too. -/
theorem ping_hash_never_zero :
    (∀ (pn : PackedNode) (now : Nat), no_zero_id (DhtNode.new pn now)) ∧
    (∀ (node : DhtNode) (now : Nat) (rnd : List Nat) (pid : Nat) (node2 : DhtNode),
      no_zero_id node → node.insert_new_ping_id now rnd = some (pid, node2) →
      pid ≠ 0 ∧ List.lookup pid node.ping_hash = none ∧ no_zero_id node2) ∧
    (∀ (node : DhtNode) (now ping_id timeout : Nat),
      no_zero_id node → no_zero_id (node.check_ping_id now ping_id timeout).2) ∧
    (∀ (node : DhtNode) (now timeout : Nat),
      no_zero_id node → no_zero_id (node.clear_timedout_pings now timeout)) := by
  refine ⟨?_, ?_, ?_, ?_⟩
  · intro pn now p hp
    simp [DhtNode.new] at hp
  · intro node now rnd pid node2 hinv h
    unfold DhtNode.insert_new_ping_id at h
    cases hg : node.generate_ping_id rnd with
    | none =>
      rw [hg] at h
      exact absurd h (by simp)
    | some pid0 =>
      rw [hg] at h
      have h2 := Option.some.inj h
      have hgen := generate_ping_id_spec node rnd pid0 hg
      have hp : pid0 = pid := congrArg Prod.fst h2
      have hn : ({ node with ping_hash := hashInsert node.ping_hash pid0 now } : DhtNode) =
          node2 := congrArg Prod.snd h2
      subst hp
      refine ⟨hgen.1, hgen.2, ?_⟩
      rw [← hn]
      intro p hp
      simp only [hashInsert] at hp
      rcases List.mem_cons.mp hp with hh | hh
      · rw [hh]
        exact hgen.1
      · exact hinv p (List.mem_of_mem_filter hh)
  · intro node now ping_id timeout hinv
    have key : (node.check_ping_id now ping_id timeout).2 = node ∨
        (node.check_ping_id now ping_id timeout).2 =
          { node with ping_hash := node.ping_hash.filter (fun p => p.1 != ping_id) } := by
      unfold DhtNode.check_ping_id
      by_cases h0 : ping_id = 0
      · left
        simp [h0]
      · cases hl : List.lookup ping_id node.ping_hash with
        | none =>
          left
          simp [h0, hl]
        | some t =>
          right
          by_cases ht : now - t > timeout <;> simp [h0, hl, ht]
    rcases key with hk | hk <;> rw [hk]
    · exact hinv
    · intro p hp
      exact hinv p (List.mem_of_mem_filter hp)
  · intro node now timeout hinv p hp
    simp only [DhtNode.clear_timedout_pings] at hp
    exact hinv p (List.mem_of_mem_filter hp)

/-- Witness for the claim C9 theorem: issuing on an empty store yields
a nonzero fresh id and preserves the invariant. -/
theorem ping_hash_never_zero_witness :
    (7 : Nat) ≠ 0 ∧
      List.lookup 7 (DhtNode.ping_hash ⟨0, 1, [], 0, 0⟩) = none ∧
      no_zero_id ⟨0, 1, [(7, 5)], 0, 0⟩ :=
  ping_hash_never_zero.2.1 ⟨0, 1, [], 0, 0⟩ 5 [7] 7 ⟨0, 1, [(7, 5)], 0, 0⟩
    (by intro p hp; simp at hp) (by decide)
